import Mathlib

/-!
# Shallow embedding of the transformimgs dispatch core (src/img/queue.go, src/img/service.go)

This file embeds the queue/dispatcher core and the request-negotiation logic
of the image-transformation service into Lean, and proves properties about it.

Modelling conventions:
* Go byte slices become `List Nat`; Go strings become `String`.
* A nullable Go pointer or function value becomes an `Option`.
* A Go function returning `(T, error)` becomes a function returning
  `Option T × Option String` when both slots are written independently
  (as in `op.Result, op.Err = op.Transformation(op.Config)`), or
  `Except String T` for external collaborators (the `Loader`).
* The lane worker's interaction with a `Command` (take the command, possibly
  invoke the transformation, set `Finished` under the command's lock, signal
  the condition variable) is modelled as a pure step function that returns
  the updated command together with an ordered trace of events; a run into a
  nil function value (a Go runtime panic) is modelled as `none`.
* Process-wide Go variables (`SaveDataEnabled`) become explicit parameters.
-/

namespace Img

/-- `img.Image`: identifier, byte payload, and MIME type. -/
structure Image where
  Id : String
  Data : List Nat
  MimeType : String
deriving Repr, DecidableEq

/-- `img.Quality` is an integer typedef in Go (`type Quality int`); the zero
value 0 is distinct from both named constants. -/
abbrev Quality := Nat

/-- `img.DEFAULT = 1 + iota` with iota 0. -/
def DEFAULT : Quality := 1

/-- `img.LOW`. -/
def LOW : Quality := 2

/-- `img.ResizeConfig`. -/
structure ResizeConfig where
  Size : String
deriving Repr, DecidableEq

/-- `img.TransformationConfig`. The Go `Config interface{}` field only ever
holds `nil` or a `*ResizeConfig`, so it is embedded as `Option ResizeConfig`.
`Src` is a nullable pointer in Go. -/
structure TransformationConfig where
  Src : Option Image
  SupportedFormats : List String
  Quality : Quality
  Config : Option ResizeConfig

/-- `img.Cmd`: a transformation function `func(*TransformationConfig) (*Image, error)`.
Both return slots are modelled because the worker assigns both at once. -/
def Cmd := TransformationConfig → Option Image × Option String

/-- `img.Command`: the scheduled unit of work. The condition variable
`FinishedCond` has no pure content beyond the `Finished` flag and the signal
event, which the worker model traces explicitly; the response writer `Resp`
is an external effect handle and is not part of the pure state. -/
structure Command where
  Transformation : Option Cmd
  Config : TransformationConfig
  Result : Option Image
  Finished : Bool
  Err : Option String

/-- `emptyGif`: the fixed 37-byte single-transparent-pixel GIF written when
the save-data "hide" override fires. -/
def emptyGif : List Nat :=
  [0x47, 0x49, 0x46, 0x38, 0x39, 0x61, 0x1, 0x0, 0x1, 0x0, 0x0, 0x0, 0x0,
   0x21, 0xf9, 0x4, 0x1, 0xa, 0x0, 0x1, 0x0, 0x2c, 0x0, 0x0, 0x0, 0x0,
   0x1, 0x0, 0x1, 0x0, 0x0, 0x2, 0x2, 0x4c, 0x1, 0x0, 0x3b]

/-! ## The HTTP request surface seen by the handlers -/

/-- The slice of an inbound `http.Request` that the handlers read: the mux
path variable `imgUrl`, the decoded query (ordered key/value pairs), and the
three headers the code consults, each a list of values as in Go's
`http.Header` map. -/
structure Request where
  imgUrl : String
  query : List (String × String)
  saveDataHeader : List String
  acceptHeader : List String
  forwardedProtoHeader : List String

/-- Build a request from its parts; used to evaluate the handlers on
concrete inputs. -/
def mkRequest (url : String) (query : List (String × String))
    (saveData accept fwdProto : List String) : Request :=
  { imgUrl := url, query := query, saveDataHeader := saveData,
    acceptHeader := accept, forwardedProtoHeader := fwdProto }

/-- Go `http.Header.Get`: the first value, or the empty string. -/
def headerGet (vals : List String) : String := vals.headD ""

/-- The ordered list of values of one query parameter, as Go's
`url.Query()[name]`. -/
def queryValues (req : Request) (name : String) : List String :=
  (req.query.filter (fun p => p.1 = name)).map Prod.snd

/-- `getQueryParam` (service.go:488-493): the parameter's value when it occurs
exactly once in the URL, the empty string otherwise. -/
def getQueryParam (req : Request) (name : String) : String :=
  if (queryValues req name).length = 1 then (queryValues req name).headD ""
  else ""

/-- `strings.HasPrefix(s, "//")` on the character list of `s`. -/
def startsWithSlashSlash (s : String) : Bool :=
  s.toList.take 2 = ['/', '/']

/-- `getImgUrl` (service.go:495-506): empty string for a missing path segment;
a scheme-relative `//…` locator is made absolute with the forwarded protocol
when exactly one `X-Forwarded-Proto` value is present; otherwise the locator
passes through unchanged. -/
def getImgUrl (req : Request) : String :=
  if req.imgUrl = "" then ""
  else if startsWithSlashSlash req.imgUrl ∧ req.forwardedProtoHeader.length = 1 then
    headerGet req.forwardedProtoHeader ++ ":" ++ req.imgUrl
  else req.imgUrl

/-- Go `strings.Split` with a one-character separator, over character lists.
`splitOnChar c l` always returns one more part than there are occurrences of
`c` in `l`. -/
def splitOnChar (c : Char) : List Char → List (List Char)
  | [] => [[]]
  | a :: rest =>
    match splitOnChar c rest with
    | [] => if a = c then [[], []] else [[a]]
    | h :: t => if a = c then [] :: h :: t else (a :: h) :: t

/-- Rejoin the parts produced by `splitOnChar`, re-inserting the separator;
used to state that `splitOnChar` really is a split of the original string. -/
def joinParts (c : Char) : List (List Char) → List Char
  | [] => []
  | [p] => p
  | p :: q :: rest => p ++ c :: joinParts c (q :: rest)

/-- Go `strings.TrimSpace`: drop leading and trailing whitespace characters. -/
def trimChars (l : List Char) : List Char :=
  ((l.dropWhile Char.isWhitespace).reverse.dropWhile Char.isWhitespace).reverse

/-- `getSupportedFormats` (service.go:508-520): split the first `Accept`
value on commas, trim whitespace from each entry in order; empty list when
the header is absent. -/
def getSupportedFormats (req : Request) : List String :=
  match req.acceptHeader with
  | [] => []
  | a :: _ => (splitOnChar ',' a.toList).map (fun l => String.mk (trimChars l))

/-- `getQuality` (service.go:575-588): `LOW` exactly when the save-data
feature is enabled, the `Save-Data` header is `"on"`, and the `save-data`
query override is not `"off"`; otherwise `DEFAULT`. -/
def getQuality (saveDataEnabled : Bool) (req : Request) : Quality :=
  if saveDataEnabled then
    if headerGet req.saveDataHeader = "on" ∧ getQueryParam req "save-data" ≠ "off" then
      LOW
    else DEFAULT
  else DEFAULT

/-! ## Size grammars (service.go:296, 387)

`ResizeUrl` matches the size against the regular expression
`^\d*[x]?\d*$` and `FitToSizeUrl` against `^\d*[x]\d*$` (RE2 `\d` is exactly
`[0-9]`). A string is in the loose language iff it consists of digits, at
most one literal `x`, and digits; the strict language requires the `x`.
Splitting the character list on `x` yields one part (no `x`) or two parts
(one `x`); three or more parts mean at least two `x`s and never match. -/

/-- All characters are ASCII digits (the RE2 `\d` class). -/
def allDigits (l : List Char) : Bool := l.all Char.isDigit

/-- The language of `^\d*[x]?\d*$`, used by `ResizeUrl`. -/
def matchesLooseSize (s : String) : Bool :=
  match splitOnChar 'x' s.toList with
  | [d] => allDigits d
  | [d1, d2] => allDigits d1 && allDigits d2
  | _ => false

/-- The language of `^\d*[x]\d*$`, used by `FitToSizeUrl`. -/
def matchesStrictSize (s : String) : Bool :=
  match splitOnChar 'x' s.toList with
  | [d1, d2] => allDigits d1 && allDigits d2
  | _ => false

/-! ## The lane worker (queue.go) -/

/-- The observable actions of the worker on one command, in order: invoking
the transformation, setting `Finished` (under the command's completion lock),
and signalling the completion condition variable. -/
inductive LaneEvent where
  | invoke
  | setFinished
  | signal
deriving Repr, DecidableEq

/-- One iteration of the worker loop `Queue.start` (queue.go:16-27) on the
command it received: when `Result` is `nil` the worker calls
`op.Transformation(op.Config)` unconditionally — if `Transformation` is also
`nil` this is a nil-function call, a Go runtime panic, modelled as `none`.
Otherwise the updated command is returned with the ordered trace of events
the iteration performed. -/
def processCommand (op : Command) : Option (Command × List LaneEvent) :=
  match op.Result with
  | some _ =>
    some ({ op with Finished := true }, [LaneEvent.setFinished, LaneEvent.signal])
  | none =>
    match op.Transformation with
    | none => none
    | some f =>
      let r := f op.Config
      some ({ op with Result := r.1, Err := r.2, Finished := true },
            [LaneEvent.invoke, LaneEvent.setFinished, LaneEvent.signal])

/-- The worker loop run over the sequence of commands delivered to one lane,
in channel (submission) order. A panic (`none` step) kills the goroutine, so
no later command is processed. -/
def laneRun : List Command → Option (List Command)
  | [] => some []
  | op :: rest =>
    match processCommand op with
    | none => none
    | some (op', _) => (laneRun rest).map (op' :: ·)

/-! ## Response writing (service.go:479-530) -/

/-- The observable HTTP response produced for one command. -/
inductive HttpResponse where
  | errorResp (status : Nat) (msg : String)
  | ok (headers : List (String × String)) (body : List Nat)

/-- `addHeaders` (service.go:480-486): `Content-Type` when the MIME type is
known, then `Content-Length` and `Cache-Control` with the configured TTL. -/
def addHeaders (cacheTTL : Nat) (image : Image) : List (String × String) :=
  (if image.MimeType ≠ "" then [("Content-Type", image.MimeType)] else []) ++
  [("Content-Length", toString image.Data.length),
   ("Cache-Control", "public, max-age=" ++ toString cacheTTL)]

/-- `writeResult` (service.go:522-530): a command carrying an error renders
as a 500 with the error message; otherwise the result image is written with
headers. `none` models the nil dereference were both `Err` and `Result`
unset (never reached by commands the service produces). -/
def writeResult (cacheTTL : Nat) (op : Command) : Option HttpResponse :=
  match op.Err with
  | some e =>
    some (HttpResponse.errorResp 500 ("Error transforming image: '" ++ e ++ "'"))
  | none =>
    op.Result.map (fun image => HttpResponse.ok (addHeaders cacheTTL image) image.Data)

/-! ## The handlers (service.go:289-305, 381-396, 425-454, 532-573) -/

/-- What a handler invocation does, as far as the dispatch core is concerned:
reject with a client error, short-circuit with the placeholder body, fail the
source load with a server error, or construct a command and submit it to a
lane. A submission is the only outcome that reaches the queue system. -/
inductive TransformOutcome where
  | badRequest (msg : String)
  | hidden (body : List Nat)
  | loadError (msg : String)
  | submitted (cmd : Command)

/-- `Service.transformUrl` (service.go:532-573), with the process-wide flag
`SaveDataEnabled` and the `Loader` passed explicitly. The `Vary` response
header it adds is not part of the outcome. Checks, in source order: missing
locator → 400; save-data hide override → the `emptyGif` body and nothing
else; load failure → 500; otherwise a command carrying the transformation,
the negotiated config, and no pre-set result is submitted. -/
def transformUrl (saveDataEnabled : Bool) (loader : String → Except String Image)
    (req : Request) (transformation : Cmd) (config : Option ResizeConfig) :
    TransformOutcome :=
  let imgUrl := getImgUrl req
  if imgUrl = "" then TransformOutcome.badRequest "url param is required"
  else if saveDataEnabled ∧ headerGet req.saveDataHeader = "on" ∧
      getQueryParam req "save-data" = "hide" then
    TransformOutcome.hidden emptyGif
  else
    match loader imgUrl with
    | Except.error e =>
      TransformOutcome.loadError ("Error reading image: '" ++ e ++ "'")
    | Except.ok srcImage =>
      TransformOutcome.submitted
        { Transformation := some transformation
          Config :=
            { Src := some srcImage
              SupportedFormats := getSupportedFormats req
              Quality := getQuality saveDataEnabled req
              Config := config }
          Result := none
          Finished := false
          Err := none }

/-- `Service.ResizeUrl` (service.go:289-305): requires a non-empty `size`
query parameter matching the loose grammar, then delegates to `transformUrl`
with the processor's `Resize` as the transformation. -/
def ResizeUrl (saveDataEnabled : Bool) (loader : String → Except String Image)
    (resize : Cmd) (req : Request) : TransformOutcome :=
  let size := getQueryParam req "size"
  if size = "" then TransformOutcome.badRequest "size param is required"
  else if ¬ matchesLooseSize size then
    TransformOutcome.badRequest "size param should be in format WxH"
  else transformUrl saveDataEnabled loader req resize (some { Size := size })

/-- `Service.FitToSizeUrl` (service.go:381-396): as `ResizeUrl` but with the
strict grammar and the processor's `FitToSize`. -/
def FitToSizeUrl (saveDataEnabled : Bool) (loader : String → Except String Image)
    (fitToSize : Cmd) (req : Request) : TransformOutcome :=
  let size := getQueryParam req "size"
  if size = "" then TransformOutcome.badRequest "size param is required"
  else if ¬ matchesStrictSize size then
    TransformOutcome.badRequest "size param should be in format WxH"
  else transformUrl saveDataEnabled loader req fitToSize (some { Size := size })

/-- Outcome of the `AsIs` handler; a successful load also adds the source's
`Content-Type` header before submission. -/
inductive AsIsOutcome where
  | badRequest (msg : String)
  | loadError (msg : String)
  | submitted (contentType : Option String) (cmd : Command)

/-- `Service.AsIs` (service.go:425-454): loads the source image on the
request thread and submits a command whose `Result` is pre-populated and
whose `Transformation` is left `nil`, so the lane passes it through. The
config's `Quality` is the Go zero value 0, not `DEFAULT`. -/
def AsIs (loader : String → Except String Image) (req : Request) : AsIsOutcome :=
  let imgUrl := getImgUrl req
  if imgUrl = "" then AsIsOutcome.badRequest "url param is required"
  else
    match loader imgUrl with
    | Except.error e =>
      AsIsOutcome.loadError ("Error reading image: '" ++ e ++ "'")
    | Except.ok result =>
      AsIsOutcome.submitted
        (if result.MimeType ≠ "" then some result.MimeType else none)
        { Transformation := none
          Config :=
            { Src := some { Id := imgUrl, Data := [], MimeType := "" }
              SupportedFormats := []
              Quality := 0
              Config := none }
          Result := some result
          Finished := false
          Err := none }

/-! ## The dispatcher's lane selection (service.go:91-132, 456-477) -/

/-- The dispatcher state the lane selection reads and writes: the fixed pool
size `len(r.Q)` and the mutex-guarded cursor `currProc`. -/
structure ServiceState where
  n : Nat
  currProc : Nat
deriving Repr, DecidableEq

/-- `NewService` (service.go:113-132): fails when `procNum <= 0`, otherwise
creates `procNum` lanes and starts the cursor at 0. -/
def NewService (procNum : Int) : Except String ServiceState :=
  if procNum ≤ 0 then
    Except.error ("procNum must be positive, but got [" ++ toString procNum ++ "]")
  else Except.ok { n := procNum.toNat, currProc := 0 }

/-- `Service.getQueue` (service.go:466-477): under the cursor mutex,
increment the cursor, wrap it to 0 when it reaches the pool size, and return
the lane at the new cursor. Yields the updated state and the selected lane
index. -/
def getQueue (s : ServiceState) : ServiceState × Nat :=
  let c := s.currProc + 1
  let c := if c = s.n then 0 else c
  ({ s with currProc := c }, c)

/-- The lane indices handed out by `m` successive submissions, in submission
order, together with the final dispatcher state. -/
def runSubmissions (s : ServiceState) : Nat → List Nat × ServiceState
  | 0 => ([], s)
  | m + 1 =>
    let (s', idx) := getQueue s
    let (rest, sf) := runSubmissions s' m
    (idx :: rest, sf)

/-! ## Concrete sample values, used to evaluate the model on specific inputs -/

/-- A concrete image. -/
def sampleImage : Image := { Id := "i", Data := [7], MimeType := "image/png" }

/-- A concrete transformation configuration. -/
def sampleConfig : TransformationConfig :=
  { Src := none, SupportedFormats := [], Quality := 0, Config := none }

/-- A pass-through command as `AsIs` submits: nil transformation,
pre-populated result. -/
def passThroughCmd : Command :=
  { Transformation := none, Config := sampleConfig, Result := some sampleImage,
    Finished := false, Err := none }

/-- A command whose transformation fails with an error. -/
def failingCmd : Command :=
  { Transformation := some (fun _ => (none, some "boom")), Config := sampleConfig,
    Result := none, Finished := false, Err := none }

/-- A command whose transformation succeeds with `sampleImage`. -/
def succeedingCmd : Command :=
  { Transformation := some (fun _ => (some sampleImage, none)), Config := sampleConfig,
    Result := none, Finished := false, Err := none }

end Img

section SanityChecks

example : Img.matchesLooseSize "50" = true := by decide
example : Img.matchesLooseSize "x50" = true := by decide
example : Img.matchesLooseSize "50x50" = true := by decide
example : Img.matchesLooseSize "abcx" = false := by decide
example : Img.matchesStrictSize "50x50" = true := by decide
example : Img.matchesStrictSize "50" = false := by decide
example : Img.matchesStrictSize "50x50x50" = false := by decide
example : Img.getSupportedFormats
    { imgUrl := "", query := [], saveDataHeader := [],
      acceptHeader := ["image/webp, image/avif"], forwardedProtoHeader := [] }
    = ["image/webp", "image/avif"] := by decide

example : (Img.runSubmissions { n := 3, currProc := 0 } 7).1
    = [1, 2, 0, 1, 2, 0, 1] := by decide

end SanityChecks

namespace Img

/-! ## Properties of `splitOnChar` -/

theorem splitOnChar_ne_nil (c : Char) : ∀ l : List Char, splitOnChar c l ≠ []
  | [] => by simp [splitOnChar]
  | a :: rest => by
    simp only [splitOnChar]
    cases splitOnChar c rest <;> by_cases hac : a = c <;> simp [hac]

theorem joinParts_splitOnChar (c : Char) : ∀ l : List Char,
    joinParts c (splitOnChar c l) = l
  | [] => rfl
  | a :: rest => by
    have ih := joinParts_splitOnChar c rest
    simp only [splitOnChar]
    cases h : splitOnChar c rest with
    | nil => exact absurd h (splitOnChar_ne_nil c rest)
    | cons hd tl =>
      rw [h] at ih
      by_cases hac : a = c
      · subst hac
        simp only [if_pos rfl, joinParts, List.nil_append]
        rw [ih]
      · simp only [if_neg hac]
        cases tl with
        | nil =>
          simp only [joinParts] at ih ⊢
          rw [ih]
        | cons q t =>
          simp only [joinParts, List.cons_append] at ih ⊢
          rw [ih]

theorem not_mem_of_mem_splitOnChar (c : Char) : ∀ l p, p ∈ splitOnChar c l → c ∉ p
  | [], p, hp => by
    simp only [splitOnChar, List.mem_singleton] at hp
    subst hp
    simp
  | a :: rest, p, hp => by
    have ih := fun q => not_mem_of_mem_splitOnChar c rest q
    cases h : splitOnChar c rest with
    | nil => exact absurd h (splitOnChar_ne_nil c rest)
    | cons hd tl =>
      simp only [splitOnChar, h] at hp
      have ihhd : c ∉ hd := ih hd (h ▸ List.mem_cons_self hd tl)
      have ihtl : ∀ q ∈ tl, c ∉ q := fun q hq => ih q (h ▸ List.mem_cons_of_mem hd hq)
      by_cases hac : a = c
      · rw [if_pos hac] at hp
        rcases List.mem_cons.mp hp with h1 | hp2
        · subst h1
          simp
        · rcases List.mem_cons.mp hp2 with h2 | h3
          · subst h2
            exact ihhd
          · exact ihtl p h3
      · rw [if_neg hac] at hp
        rcases List.mem_cons.mp hp with h1 | hp2
        · subst h1
          intro hin
          rcases List.mem_cons.mp hin with h2 | h3
          · exact hac h2.symm
          · exact ihhd h3
        · exact ihtl p hp2

theorem splitOnChar_of_not_mem (c : Char) : ∀ {l : List Char}, c ∉ l →
    splitOnChar c l = [l]
  | [], _ => rfl
  | a :: rest, h => by
    have hac : ¬ a = c := fun e => h (e ▸ List.mem_cons_self a rest)
    have hr : c ∉ rest := fun e => h (List.mem_cons_of_mem a e)
    simp only [splitOnChar, splitOnChar_of_not_mem c hr, if_neg hac]

theorem splitOnChar_append_sep (c : Char) :
    ∀ {a : List Char}, c ∉ a → ∀ b : List Char,
    splitOnChar c (a ++ c :: b) = a :: splitOnChar c b
  | [], _, b => by
    simp only [List.nil_append, splitOnChar]
    cases h : splitOnChar c b with
    | nil => exact absurd h (splitOnChar_ne_nil c b)
    | cons hd tl => simp
  | d :: a, ha, b => by
    have hdc : ¬ d = c := fun e => ha (e ▸ List.mem_cons_self d a)
    have ha' : c ∉ a := fun e => ha (List.mem_cons_of_mem d e)
    have ih := splitOnChar_append_sep c ha' b
    show splitOnChar c (d :: (a ++ c :: b)) = (d :: a) :: splitOnChar c b
    simp only [splitOnChar, ih, if_neg hdc]

/-! ## C4: save-data quality resolution -/

/-- C4: for every request the resolved quality is `LOW` if and only if the
save-data feature is enabled, the `Save-Data` header equals `"on"`, and the
save-data query override does not equal `"off"`; in every other case it is
`DEFAULT`; `LOW` and `DEFAULT` are distinct, and the four concrete instances
named by the claim evaluate as stated. -/
theorem C4_quality_resolution (saveDataEnabled : Bool) (req : Request) :
    (getQuality saveDataEnabled req =
      if saveDataEnabled = true ∧ headerGet req.saveDataHeader = "on" ∧
          getQueryParam req "save-data" ≠ "off"
       then LOW else DEFAULT) ∧
    LOW ≠ DEFAULT ∧
    getQuality true (mkRequest "u" [] ["on"] [] []) = LOW ∧
    getQuality true (mkRequest "u" [("save-data", "off")] ["on"] [] []) = DEFAULT ∧
    getQuality false (mkRequest "u" [] ["on"] [] []) = DEFAULT ∧
    getQuality true (mkRequest "u" [] [] [] []) = DEFAULT := by
  refine ⟨?_, by decide, by decide, by decide, by decide, by decide⟩
  cases saveDataEnabled <;>
    by_cases hcond : headerGet req.saveDataHeader = "on" ∧
      ¬ getQueryParam req "save-data" = "off" <;>
    simp [getQuality, hcond]

/-! ## C9: query parameters must occur exactly once -/

/-- C9: `getQueryParam` returns a query parameter's value only when the
parameter occurs exactly once in the request URL; with zero or two or more
occurrences it returns the empty string, identical to what it returns after
deleting the parameter from the query entirely, so a repeated required
parameter is treated exactly as an absent one (e.g. `ResizeUrl` rejects a
repeated `size` with the same 400 as a missing one). -/
theorem C9_query_param_exactly_once (req : Request) (name : String) :
    (∀ v, queryValues req name = [v] → getQueryParam req name = v) ∧
    (queryValues req name = [] → getQueryParam req name = "") ∧
    (2 ≤ (queryValues req name).length → getQueryParam req name = "") ∧
    ((queryValues req name).length ≠ 1 →
      getQueryParam req name =
        getQueryParam { req with query := req.query.filter (fun p => ¬ p.1 = name) } name) ∧
    (∀ enabled loader resize, (queryValues req "size").length ≠ 1 →
      ResizeUrl enabled loader resize req =
        TransformOutcome.badRequest "size param is required") := by
  have hfilter : queryValues
      { req with query := req.query.filter (fun p => ¬ p.1 = name) } name = [] := by
    simp only [queryValues, List.filter_filter]
    rw [List.map_eq_nil_iff, List.filter_eq_nil_iff]
    intro p _
    simp
  refine ⟨?_, ?_, ?_, ?_, ?_⟩
  · intro v hv
    simp [getQueryParam, hv]
  · intro hv
    simp [getQueryParam, hv]
  · intro h2
    rw [getQueryParam, if_neg (by omega)]
  · intro hne
    rw [getQueryParam, if_neg hne, getQueryParam, hfilter]
    simp
  · intro enabled loader resize hne
    have hempty : getQueryParam req "size" = "" := by
      rw [getQueryParam, if_neg hne]
    simp [ResizeUrl, hempty]

/-- C9 witness: a request repeating `size` twice yields the empty string and
the same 400 rejection as an absent `size`. -/
theorem C9_query_param_exactly_once_witness :
    getQueryParam (mkRequest "u" [("size", "50"), ("size", "60")] [] [] []) "size" = "" ∧
    ResizeUrl true (fun _ => Except.error "no loader") (fun _ => (none, none))
      (mkRequest "u" [("size", "50"), ("size", "60")] [] [] []) =
      TransformOutcome.badRequest "size param is required" := by
  constructor
  · exact (C9_query_param_exactly_once
      (mkRequest "u" [("size", "50"), ("size", "60")] [] [] []) "size").2.2.1 (by decide)
  · exact (C9_query_param_exactly_once
      (mkRequest "u" [("size", "50"), ("size", "60")] [] [] []) "size").2.2.2.2
      true (fun _ => Except.error "no loader") (fun _ => (none, none)) (by decide)

/-! ## C8: image-locator resolution -/

/-- C8: a scheme-relative locator (`//…`) is made absolute by prepending the
single forwarded-protocol value and a colon; in every other case the locator
passes through unchanged; an empty path segment resolves to the empty
locator and is rejected with a 400 by both `transformUrl` and `AsIs` before
any load or submission, whatever the loader. -/
theorem C8_image_locator_resolution (req : Request) :
    (∀ proto, req.forwardedProtoHeader = [proto] →
      startsWithSlashSlash req.imgUrl = true → ¬ req.imgUrl = "" →
      getImgUrl req = proto ++ ":" ++ req.imgUrl) ∧
    (¬ req.imgUrl = "" →
      (startsWithSlashSlash req.imgUrl = false ∨ req.forwardedProtoHeader.length ≠ 1) →
      getImgUrl req = req.imgUrl) ∧
    (req.imgUrl = "" →
      getImgUrl req = "" ∧
      (∀ enabled loader t cfg, transformUrl enabled loader req t cfg =
        TransformOutcome.badRequest "url param is required") ∧
      (∀ loader, AsIs loader req = AsIsOutcome.badRequest "url param is required")) := by
  refine ⟨?_, ?_, ?_⟩
  · intro proto hproto hslash hne
    rw [getImgUrl, if_neg hne, if_pos ⟨hslash, by rw [hproto]; rfl⟩]
    rw [hproto]
    rfl
  · intro hne hcase
    rw [getImgUrl, if_neg hne, if_neg ?_]
    rintro ⟨h1, h2⟩
    rcases hcase with hc | hc
    · rw [h1] at hc
      exact absurd hc (by decide)
    · exact hc h2
  · intro hempty
    have hurl : getImgUrl req = "" := by rw [getImgUrl, if_pos hempty]
    refine ⟨hurl, ?_, ?_⟩
    · intro enabled loader t cfg
      simp [transformUrl, hurl]
    · intro loader
      simp [AsIs, hurl]

/-- C8 witness: a scheme-relative locator behind a single forwarded protocol
becomes absolute, and the empty path segment yields a 400 from
`transformUrl`. -/
theorem C8_image_locator_resolution_witness :
    getImgUrl (mkRequest "//cdn.example.com/a.png" [] [] [] ["https"]) =
      "https://cdn.example.com/a.png" ∧
    transformUrl true (fun _ => Except.error "down") (mkRequest "" [] [] [] [])
      (fun _ => (none, none)) none =
      TransformOutcome.badRequest "url param is required" := by
  constructor
  · exact (C8_image_locator_resolution
      (mkRequest "//cdn.example.com/a.png" [] [] [] ["https"])).1
      "https" rfl (by decide) (by decide)
  · exact ((C8_image_locator_resolution (mkRequest "" [] [] [] [])).2.2 rfl).2.1
      true (fun _ => Except.error "down") (fun _ => (none, none)) none

/-! ## C4 witness (the statement contains a disequality) -/

/-- C4 witness: the first concrete instance, extracted from the theorem. -/
theorem C4_quality_resolution_witness :
    getQuality true (mkRequest "u" [] ["on"] [] []) = LOW :=
  (C4_quality_resolution true (mkRequest "u" [] ["on"] [] [])).2.2.1

/-! ## C5: the save-data hide short-circuit -/

/-- C5: for a request with a valid locator, `transformUrl` short-circuits
with the fixed `emptyGif` placeholder body exactly when the save-data
feature is enabled, the `Save-Data` header equals `"on"`, and the save-data
query override equals `"hide"`; when it fires the outcome is the same for
every loader (no source fetch) and is never a lane submission (no command is
constructed); for any other combination of those three inputs the outcome is
never the placeholder. -/
theorem C5_hide_short_circuit (saveDataEnabled : Bool)
    (loader : String → Except String Image) (req : Request) (t : Cmd)
    (cfg : Option ResizeConfig) (h : ¬ getImgUrl req = "") :
    (∀ body, transformUrl saveDataEnabled loader req t cfg = TransformOutcome.hidden body →
      body = emptyGif ∧ saveDataEnabled = true ∧
      headerGet req.saveDataHeader = "on" ∧ getQueryParam req "save-data" = "hide") ∧
    (saveDataEnabled = true → headerGet req.saveDataHeader = "on" →
      getQueryParam req "save-data" = "hide" →
      ∀ loader' : String → Except String Image,
        transformUrl saveDataEnabled loader' req t cfg = TransformOutcome.hidden emptyGif ∧
        ∀ cmd, transformUrl saveDataEnabled loader' req t cfg ≠
          TransformOutcome.submitted cmd) := by
  by_cases hc : saveDataEnabled = true ∧ headerGet req.saveDataHeader = "on" ∧
      getQueryParam req "save-data" = "hide"
  · constructor
    · intro body hbody
      simp only [transformUrl, if_neg h, if_pos hc] at hbody
      exact ⟨(TransformOutcome.hidden.injEq _ _ ▸ hbody).symm, hc.1, hc.2.1, hc.2.2⟩
    · intro _ _ _ loader'
      constructor
      · simp only [transformUrl, if_neg h, if_pos hc]
      · intro cmd
        simp only [transformUrl, if_neg h, if_pos hc]
        intro hcontra
        exact TransformOutcome.noConfusion hcontra
  · constructor
    · intro body hbody
      simp only [transformUrl, if_neg h, if_neg hc] at hbody
      cases hl : loader (getImgUrl req) with
      | error e =>
        rw [hl] at hbody
        exact TransformOutcome.noConfusion hbody
      | ok srcImage =>
        rw [hl] at hbody
        exact TransformOutcome.noConfusion hbody
    · intro h1 h2 h3
      exact absurd ⟨h1, h2, h3⟩ hc

/-- C5 witness: a concrete request with the feature on, the header `"on"`,
and the `hide` override produces the placeholder body and no submission. -/
theorem C5_hide_short_circuit_witness :
    transformUrl true (fun _ => Except.error "down")
      (mkRequest "http://a/b.png" [("save-data", "hide")] ["on"] [] [])
      (fun _ => (none, none)) none = TransformOutcome.hidden emptyGif :=
  ((C5_hide_short_circuit true (fun _ => Except.error "down")
      (mkRequest "http://a/b.png" [("save-data", "hide")] ["on"] [] [])
      (fun _ => (none, none)) none (by decide)).2 rfl (by decide) (by decide)
      (fun _ => Except.error "down")).1

/-! ## C7: supported output formats from the Accept header -/

/-- C7: the supported-formats list is obtained from the first `Accept` value
by splitting on commas (the parts rejoin to the original value and contain
no comma) and trimming each entry, preserving the client-stated order
entry-by-entry; an absent `Accept` header yields the empty list. -/
theorem C7_supported_formats (req : Request) :
    (req.acceptHeader = [] → getSupportedFormats req = []) ∧
    (∀ a rest, req.acceptHeader = a :: rest →
      getSupportedFormats req =
        (splitOnChar ',' a.toList).map (fun p => String.mk (trimChars p)) ∧
      joinParts ',' (splitOnChar ',' a.toList) = a.toList ∧
      (∀ p ∈ splitOnChar ',' a.toList, ',' ∉ p) ∧
      (getSupportedFormats req).length = (splitOnChar ',' a.toList).length ∧
      (∀ i : Nat, (getSupportedFormats req)[i]? =
        ((splitOnChar ',' a.toList)[i]?).map (fun p => String.mk (trimChars p)))) := by
  constructor
  · intro h
    simp [getSupportedFormats, h]
  · intro a rest h
    have hdef : getSupportedFormats req =
        (splitOnChar ',' a.toList).map (fun p => String.mk (trimChars p)) := by
      simp [getSupportedFormats, h]
    refine ⟨hdef, joinParts_splitOnChar _ _,
      fun p hp => not_mem_of_mem_splitOnChar _ _ p hp, ?_, ?_⟩
    · rw [hdef, List.length_map]
    · intro i
      rw [hdef, List.getElem?_map]

/-- C7 witness: an absent header yields `[]`; a concrete two-entry header
with surrounding spaces yields the trimmed entries in client order. -/
theorem C7_supported_formats_witness :
    getSupportedFormats (mkRequest "u" [] [] [] []) = [] ∧
    getSupportedFormats (mkRequest "u" [] [] ["image/webp, image/avif"] []) =
      ["image/webp", "image/avif"] := by
  constructor
  · exact (C7_supported_formats (mkRequest "u" [] [] [] [])).1 rfl
  · rw [((C7_supported_formats
      (mkRequest "u" [] [] ["image/webp, image/avif"] [])).2
      "image/webp, image/avif" [] rfl).1]
    decide

/-! ## C6: size-grammar validation -/

/-- A list of digit characters does not contain the separator `x`. -/
theorem not_mem_x_of_digits {l : List Char} (h : ∀ ch ∈ l, ch.isDigit = true) :
    'x' ∉ l := by
  intro hx
  have := h 'x' hx
  simp at this

/-- `matchesLooseSize` recognises exactly the strings made of digits, an
optional single literal `x`, and digits — the language of `^\d*[x]?\d*$`. -/
theorem matchesLooseSize_iff (s : String) :
    matchesLooseSize s = true ↔
      ∃ a b : List Char, (∀ ch ∈ a, ch.isDigit = true) ∧ (∀ ch ∈ b, ch.isDigit = true) ∧
        (s.toList = a ++ b ∨ s.toList = a ++ 'x' :: b) := by
  have hjoin := joinParts_splitOnChar 'x' s.toList
  constructor
  · intro hm
    cases h : splitOnChar 'x' s.toList with
    | nil => exact absurd h (splitOnChar_ne_nil 'x' s.toList)
    | cons d tl =>
      rw [h] at hjoin
      cases tl with
      | nil =>
        rw [matchesLooseSize, h] at hm
        refine ⟨d, [], fun ch hc => List.all_eq_true.mp hm ch hc, by simp, Or.inl ?_⟩
        simp only [joinParts] at hjoin
        rw [← hjoin, List.append_nil]
      | cons d2 tl2 =>
        cases tl2 with
        | nil =>
          rw [matchesLooseSize, h] at hm
          rw [Bool.and_eq_true] at hm
          refine ⟨d, d2, fun ch hc => List.all_eq_true.mp hm.1 ch hc,
            fun ch hc => List.all_eq_true.mp hm.2 ch hc, Or.inr ?_⟩
          simp only [joinParts] at hjoin
          rw [← hjoin]
        | cons d3 tl3 =>
          rw [matchesLooseSize, h] at hm
          exact absurd hm (by simp)
  · rintro ⟨a, b, ha, hb, hcase | hcase⟩
    · have hnx : 'x' ∉ a ++ b := by
        intro hx
        rcases List.mem_append.mp hx with hx | hx
        · exact not_mem_x_of_digits ha hx
        · exact not_mem_x_of_digits hb hx
      rw [matchesLooseSize, hcase, splitOnChar_of_not_mem 'x' hnx]
      simp only [allDigits, List.all_append, Bool.and_eq_true]
      exact ⟨List.all_eq_true.mpr ha, List.all_eq_true.mpr hb⟩
    · have hna : 'x' ∉ a := not_mem_x_of_digits ha
      have hnb : 'x' ∉ b := not_mem_x_of_digits hb
      rw [matchesLooseSize, hcase, splitOnChar_append_sep 'x' hna b,
        splitOnChar_of_not_mem 'x' hnb]
      rw [Bool.and_eq_true]
      exact ⟨List.all_eq_true.mpr ha, List.all_eq_true.mpr hb⟩

/-- `matchesStrictSize` recognises exactly the strings made of digits, one
mandatory literal `x`, and digits — the language of `^\d*[x]\d*$`. -/
theorem matchesStrictSize_iff (s : String) :
    matchesStrictSize s = true ↔
      ∃ a b : List Char, (∀ ch ∈ a, ch.isDigit = true) ∧ (∀ ch ∈ b, ch.isDigit = true) ∧
        s.toList = a ++ 'x' :: b := by
  have hjoin := joinParts_splitOnChar 'x' s.toList
  constructor
  · intro hm
    cases h : splitOnChar 'x' s.toList with
    | nil => exact absurd h (splitOnChar_ne_nil 'x' s.toList)
    | cons d tl =>
      rw [h] at hjoin
      cases tl with
      | nil =>
        rw [matchesStrictSize, h] at hm
        exact absurd hm (by simp)
      | cons d2 tl2 =>
        cases tl2 with
        | nil =>
          rw [matchesStrictSize, h] at hm
          rw [Bool.and_eq_true] at hm
          refine ⟨d, d2, fun ch hc => List.all_eq_true.mp hm.1 ch hc,
            fun ch hc => List.all_eq_true.mp hm.2 ch hc, ?_⟩
          simp only [joinParts] at hjoin
          rw [← hjoin]
        | cons d3 tl3 =>
          rw [matchesStrictSize, h] at hm
          exact absurd hm (by simp)
  · rintro ⟨a, b, ha, hb, hcase⟩
    have hna : 'x' ∉ a := not_mem_x_of_digits ha
    have hnb : 'x' ∉ b := not_mem_x_of_digits hb
    rw [matchesStrictSize, hcase, splitOnChar_append_sep 'x' hna b,
      splitOnChar_of_not_mem 'x' hnb]
    rw [Bool.and_eq_true]
    exact ⟨List.all_eq_true.mpr ha, List.all_eq_true.mpr hb⟩

/-- C6: `ResizeUrl` accepts exactly the non-empty size strings in the loose
grammar `^\d*[x]?\d*$` and `FitToSizeUrl` exactly the non-empty strings in
the strict grammar `^\d*[x]\d*$` (characterised as digit runs around an
optional resp. mandatory literal `x`); a missing or non-matching size is
rejected with a 400 before any lane submission, for every loader; the
claim's six example strings classify as stated. -/
theorem C6_size_validation (enabled : Bool) (loader : String → Except String Image)
    (t : Cmd) (req : Request) :
    (getQueryParam req "size" = "" →
      ResizeUrl enabled loader t req = TransformOutcome.badRequest "size param is required" ∧
      FitToSizeUrl enabled loader t req =
        TransformOutcome.badRequest "size param is required") ∧
    (¬ getQueryParam req "size" = "" →
      matchesLooseSize (getQueryParam req "size") = false →
      ResizeUrl enabled loader t req =
        TransformOutcome.badRequest "size param should be in format WxH") ∧
    (¬ getQueryParam req "size" = "" →
      matchesStrictSize (getQueryParam req "size") = false →
      FitToSizeUrl enabled loader t req =
        TransformOutcome.badRequest "size param should be in format WxH") ∧
    (¬ getQueryParam req "size" = "" →
      matchesLooseSize (getQueryParam req "size") = true →
      ResizeUrl enabled loader t req =
        transformUrl enabled loader req t (some { Size := getQueryParam req "size" })) ∧
    (¬ getQueryParam req "size" = "" →
      matchesStrictSize (getQueryParam req "size") = true →
      FitToSizeUrl enabled loader t req =
        transformUrl enabled loader req t (some { Size := getQueryParam req "size" })) ∧
    (∀ s : String, matchesLooseSize s = true ↔
      ∃ a b : List Char, (∀ ch ∈ a, ch.isDigit = true) ∧ (∀ ch ∈ b, ch.isDigit = true) ∧
        (s.toList = a ++ b ∨ s.toList = a ++ 'x' :: b)) ∧
    (∀ s : String, matchesStrictSize s = true ↔
      ∃ a b : List Char, (∀ ch ∈ a, ch.isDigit = true) ∧ (∀ ch ∈ b, ch.isDigit = true) ∧
        s.toList = a ++ 'x' :: b) ∧
    matchesLooseSize "50" = true ∧ matchesLooseSize "x50" = true ∧
    matchesLooseSize "50x50" = true ∧ matchesStrictSize "50x50" = true ∧
    matchesStrictSize "50" = false ∧ matchesLooseSize "abcx" = false := by
  refine ⟨?_, ?_, ?_, ?_, ?_, matchesLooseSize_iff, matchesStrictSize_iff,
    by decide, by decide, by decide, by decide, by decide, by decide⟩
  · intro h
    constructor <;> simp [ResizeUrl, FitToSizeUrl, h]
  · intro h hm
    simp [ResizeUrl, h, hm]
  · intro h hm
    simp [FitToSizeUrl, h, hm]
  · intro h hm
    simp [ResizeUrl, h, hm]
  · intro h hm
    simp [FitToSizeUrl, h, hm]

/-- C6 witness: a valid loose size proceeds to `transformUrl`, and a size
failing the strict grammar is rejected by `FitToSizeUrl` with a 400. -/
theorem C6_size_validation_witness :
    ResizeUrl true (fun _ => Except.error "down") (fun _ => (none, none))
      (mkRequest "http://a/b.png" [("size", "50")] [] [] []) =
      transformUrl true (fun _ => Except.error "down")
        (mkRequest "http://a/b.png" [("size", "50")] [] [] [])
        (fun _ => (none, none)) (some { Size := "50" }) ∧
    FitToSizeUrl true (fun _ => Except.error "down") (fun _ => (none, none))
      (mkRequest "http://a/b.png" [("size", "50")] [] [] []) =
      TransformOutcome.badRequest "size param should be in format WxH" := by
  constructor
  · exact (C6_size_validation true (fun _ => Except.error "down") (fun _ => (none, none))
      (mkRequest "http://a/b.png" [("size", "50")] [] [] [])).2.2.2.1
      (by decide) (by decide)
  · exact (C6_size_validation true (fun _ => Except.error "down") (fun _ => (none, none))
      (mkRequest "http://a/b.png" [("size", "50")] [] [] [])).2.2.1
      (by decide) (by decide)

/-! ## C2: the worker's invocation guard and completion protocol -/

/-- C2: one worker iteration invokes the command's transformation exactly
when the transformation reference is non-nil and no result is present (the
invocation stores the returned image and error on the command); a command
with a nil transformation and a pre-populated result is completed without
any invocation; every completed command emits exactly one completion signal,
with the `Finished` flag set (under the command's completion lock) strictly
before the signal in the iteration's event order. -/
theorem C2_worker_invocation_and_completion (op : Command) :
    (∀ op' ev, processCommand op = some (op', ev) →
      ((LaneEvent.invoke ∈ ev) ↔ (op.Transformation.isSome = true ∧ op.Result = none)) ∧
      ev.count LaneEvent.signal = 1 ∧
      op'.Finished = true ∧
      (∃ i j, i < j ∧ ev.get? i = some LaneEvent.setFinished ∧
        ev.get? j = some LaneEvent.signal)) ∧
    (∀ f, op.Transformation = some f → op.Result = none →
      processCommand op =
        some ({ op with Result := (f op.Config).1, Err := (f op.Config).2, Finished := true },
          [LaneEvent.invoke, LaneEvent.setFinished, LaneEvent.signal])) ∧
    (op.Transformation = none → op.Result.isSome = true →
      processCommand op =
        some ({ op with Finished := true }, [LaneEvent.setFinished, LaneEvent.signal])) := by
  refine ⟨?_, ?_, ?_⟩
  · intro op' ev hev
    cases hres : op.Result with
    | some img =>
      rw [processCommand, hres] at hev
      obtain ⟨h1, h2⟩ := Prod.mk.injEq .. ▸ Option.some.injEq .. ▸ hev
      subst h2
      refine ⟨by simp [hres], by decide, ?_, 0, 1, by omega, by decide, by decide⟩
      rw [← h1]
    | none =>
      rw [processCommand, hres] at hev
      cases htr : op.Transformation with
      | none =>
        rw [htr] at hev
        exact Option.noConfusion hev
      | some f =>
        rw [htr] at hev
        obtain ⟨h1, h2⟩ := Prod.mk.injEq .. ▸ Option.some.injEq .. ▸ hev
        subst h2
        refine ⟨by simp [hres, htr], by decide, ?_, 1, 2, by omega, by decide, by decide⟩
        rw [← h1]
  · intro f htr hres
    rw [processCommand, hres, htr]
  · intro htr hres
    cases hres' : op.Result with
    | none => rw [hres'] at hres; exact Bool.noConfusion hres
    | some img => rw [processCommand, hres']

/-- C2 witness: a concrete pass-through command (nil transformation,
pre-populated result) completes with the two-event trace and no invocation. -/
theorem C2_worker_invocation_and_completion_witness :
    processCommand passThroughCmd =
      some ({ passThroughCmd with Finished := true },
        [LaneEvent.setFinished, LaneEvent.signal]) :=
  (C2_worker_invocation_and_completion passThroughCmd).2.2 rfl rfl

/-! ## C3: errors are captured and do not degrade the lane -/

/-- C3: when a command's transformation returns an error, the error is
stored on the command, the command is still completed, and `writeResult`
renders it as a 500 response; the worker loop continues, so a second command
submitted to the same lane is executed and succeeds unaffected; in general
after a failing command the worker processes any continuation exactly as it
would have. -/
theorem C3_error_isolated_on_lane (c1 c2 : Command) (f g : Cmd) (e : String)
    (img : Image) (ttl : Nat)
    (h1 : c1.Result = none) (h2 : c1.Transformation = some f)
    (h3 : f c1.Config = (none, some e))
    (h4 : c2.Result = none) (h5 : c2.Transformation = some g)
    (h6 : g c2.Config = (some img, none)) :
    (laneRun [c1, c2] =
      some [{ c1 with Result := none, Err := some e, Finished := true },
            { c2 with Result := some img, Err := none, Finished := true }]) ∧
    writeResult ttl { c1 with Result := none, Err := some e, Finished := true } =
      some (HttpResponse.errorResp 500 ("Error transforming image: '" ++ e ++ "'")) ∧
    writeResult ttl { c2 with Result := some img, Err := none, Finished := true } =
      some (HttpResponse.ok (addHeaders ttl img) img.Data) ∧
    (∀ rest, laneRun (c1 :: rest) =
      (laneRun rest).map ({ c1 with Result := none, Err := some e, Finished := true } :: ·)) := by
  have hp1 : processCommand c1 =
      some ({ c1 with Result := none, Err := some e, Finished := true },
        [LaneEvent.invoke, LaneEvent.setFinished, LaneEvent.signal]) := by
    simp only [processCommand, h1, h2]
    rw [h3]
  have hp2 : processCommand c2 =
      some ({ c2 with Result := some img, Err := none, Finished := true },
        [LaneEvent.invoke, LaneEvent.setFinished, LaneEvent.signal]) := by
    simp only [processCommand, h4, h5]
    rw [h6]
  refine ⟨?_, rfl, rfl, ?_⟩
  · simp only [laneRun, hp1, hp2]
    rfl
  · intro rest
    simp only [laneRun, hp1]

/-- C3 witness: two concrete commands on one lane — the first errors, the
second succeeds and is unaffected. -/
theorem C3_error_isolated_on_lane_witness :
    laneRun [failingCmd, succeedingCmd] =
      some [{ failingCmd with Result := none, Err := some "boom", Finished := true },
            { succeedingCmd with Result := some sampleImage, Err := none, Finished := true }] :=
  (C3_error_isolated_on_lane failingCmd succeedingCmd
    (fun _ => (none, some "boom")) (fun _ => (some sampleImage, none))
    "boom" sampleImage 0 rfl rfl rfl rfl rfl rfl).1

/-! ## C10: submitted commands never make the worker call a nil function -/

/-- C10: every command submitted by a handler satisfies the invariant that
its transformation or its result is non-nil — `transformUrl` always sets the
transformation it was given and leaves the result nil, `AsIs` always
pre-populates the result and leaves the transformation nil — and under that
invariant the worker's unguarded call never dereferences a nil function
(its step never panics). -/
theorem C10_submitted_commands_wellformed :
    (∀ enabled loader req t cfg cmd,
      transformUrl enabled loader req t cfg = TransformOutcome.submitted cmd →
      cmd.Transformation = some t ∧ cmd.Result = none) ∧
    (∀ loader req ct cmd, AsIs loader req = AsIsOutcome.submitted ct cmd →
      cmd.Transformation = none ∧ cmd.Result.isSome = true) ∧
    (∀ cmd : Command, cmd.Transformation.isSome = true ∨ cmd.Result.isSome = true →
      (processCommand cmd).isSome = true) := by
  refine ⟨?_, ?_, ?_⟩
  · intro enabled loader req t cfg cmd h
    simp only [transformUrl] at h
    split at h
    · exact TransformOutcome.noConfusion h
    · split at h
      · exact TransformOutcome.noConfusion h
      · cases hl : loader (getImgUrl req) with
        | error e =>
          rw [hl] at h
          exact TransformOutcome.noConfusion h
        | ok srcImage =>
          rw [hl] at h
          obtain h' := (TransformOutcome.submitted.injEq ..).mp h
          rw [← h']
          exact ⟨rfl, rfl⟩
  · intro loader req ct cmd h
    simp only [AsIs] at h
    split at h
    · exact AsIsOutcome.noConfusion h
    · cases hl : loader (getImgUrl req) with
      | error e =>
        rw [hl] at h
        exact AsIsOutcome.noConfusion h
      | ok result =>
        rw [hl] at h
        obtain ⟨_, h'⟩ := (AsIsOutcome.submitted.injEq ..).mp h
        rw [← h']
        exact ⟨rfl, rfl⟩
  · intro cmd hinv
    cases hres : cmd.Result with
    | some img => rw [processCommand, hres]; rfl
    | none =>
      cases htr : cmd.Transformation with
      | some f => rw [processCommand, hres, htr]; rfl
      | none =>
        rcases hinv with hinv | hinv
        · rw [htr] at hinv
          exact Bool.noConfusion hinv
        · rw [hres] at hinv
          exact Bool.noConfusion hinv

/-- C10 witness: the worker step is defined (no panic) on a command with a
transformation and no result. -/
theorem C10_submitted_commands_wellformed_witness :
    (processCommand failingCmd).isSome = true :=
  C10_submitted_commands_wellformed.2.2 failingCmd (Or.inl rfl)

/-! ## C1: round-robin lane assignment -/

/-- One `getQueue` call from a cursor in range: pre-increment mod the pool
size, return the wrapped cursor as the selected lane index. -/
theorem getQueue_step (s : ServiceState) (hc : s.currProc < s.n) :
    getQueue s = ({ n := s.n, currProc := (s.currProc + 1) % s.n },
      (s.currProc + 1) % s.n) := by
  cases s with
  | mk n c =>
    simp only at hc
    rw [getQueue]
    by_cases h : c + 1 = n
    · simp [h, Nat.mod_self]
    · have hlt : c + 1 < n := by omega
      simp [h, Nat.mod_eq_of_lt hlt]

/-- Closed form of a run of submissions: the i-th (0-based) submission is
assigned lane `(currProc + i + 1) % n` and the cursor ends at
`(currProc + m) % n`. -/
theorem runSubmissions_eq : ∀ (m : Nat) (s : ServiceState), s.currProc < s.n →
    runSubmissions s m =
      ((List.range m).map (fun i => (s.currProc + i + 1) % s.n),
       { n := s.n, currProc := (s.currProc + m) % s.n })
  | 0, s, hc => by
    cases s with
    | mk n c => simp [runSubmissions, Nat.mod_eq_of_lt hc]
  | m + 1, s, hc => by
    have hn : 0 < s.n := Nat.lt_of_le_of_lt (Nat.zero_le _) hc
    have hc' : (s.currProc + 1) % s.n < s.n := Nat.mod_lt _ hn
    have ih := runSubmissions_eq m
      { n := s.n, currProc := (s.currProc + 1) % s.n } hc'
    rw [runSubmissions, getQueue_step s hc]
    simp only [ih]
    rw [Prod.mk.injEq]
    constructor
    · rw [List.range_succ_eq_map, List.map_cons, List.map_map]
      rw [List.cons_eq_cons]
      constructor
      · rfl
      · refine List.map_congr_left ?_
        intro i _
        show ((s.currProc + 1) % s.n + i + 1) % s.n = (s.currProc + (i + 1) + 1) % s.n
        rw [Nat.add_assoc ((s.currProc + 1) % s.n) i 1, Nat.mod_add_mod]
        congr 1
        omega
    · show (_ : ServiceState) = _
      congr 1
      rw [Nat.mod_add_mod]
      congr 1
      omega

/-- `n` consecutive values of `(a + t) % n` hit every residue exactly once. -/
theorem count_range_add_mod (n a j : Nat) (hn : 0 < n) (hj : j < n) :
    ((List.range n).map (fun t => (a + t) % n)).count j = 1 := by
  have hnodup : ((List.range n).map (fun t => (a + t) % n)).Nodup := by
    refine List.Nodup.map_on ?_ (List.nodup_range n)
    intro x hx y hy hfeq
    have hx' : x < n := List.mem_range.mp hx
    have hy' : y < n := List.mem_range.mp hy
    have hmod : x % n = y % n := Nat.ModEq.add_left_cancel' a hfeq
    rwa [Nat.mod_eq_of_lt hx', Nat.mod_eq_of_lt hy'] at hmod
  have hr : a % n < n := Nat.mod_lt _ hn
  have hmem : j ∈ (List.range n).map (fun t => (a + t) % n) := by
    rcases le_or_lt (a % n) j with hle | hlt
    · refine List.mem_map.mpr ⟨j - a % n, List.mem_range.mpr (by omega), ?_⟩
      rw [Nat.add_mod, Nat.mod_eq_of_lt (show j - a % n < n by omega),
        show a % n + (j - a % n) = j by omega, Nat.mod_eq_of_lt hj]
    · refine List.mem_map.mpr ⟨j + n - a % n, List.mem_range.mpr (by omega), ?_⟩
      rw [Nat.add_mod, Nat.mod_eq_of_lt (show j + n - a % n < n by omega),
        show a % n + (j + n - a % n) = j + n by omega, Nat.add_mod_right,
        Nat.mod_eq_of_lt hj]
  have h1 := List.nodup_iff_count_le_one.mp hnodup j
  have h2 : 0 < ((List.range n).map (fun t => (a + t) % n)).count j :=
    List.count_pos_iff.mpr hmem
  omega

/-- A window of `k` entries starting at position `p` of a mapped range. -/
theorem slice_map_range (f : Nat → Nat) (m p k : Nat) (h : p + k ≤ m) :
    (((List.range m).map f).drop p).take k =
      (List.range k).map (fun t => f (p + t)) := by
  rw [show m = p + (m - p) by omega, List.range_add, List.map_append]
  rw [List.drop_left' (by simp)]
  rw [List.map_map, ← List.map_take, List.take_range,
    show min k (m - p) = k by omega]
  rfl

/-- C1: a service is constructed exactly for pool sizes `N ≥ 1` with the
cursor at 0; from any in-range cursor, the k-th submission (1-based, k =
i + 1 for the i-th position) is assigned lane `(cursor_start + k) % N`,
the cursor after `m` submissions is `(cursor_start + m) % N` and always
stays in `[0, N)`, and every window of `N` consecutive submissions visits
each lane index exactly once, regardless of how submissions complete. -/
theorem C1_round_robin_assignment (s : ServiceState) (m : Nat)
    (hc : s.currProc < s.n) :
    (∀ k : Int, 0 < k → NewService k = Except.ok { n := k.toNat, currProc := 0 }) ∧
    (∀ k : Int, k ≤ 0 → ∃ msg, NewService k = Except.error msg) ∧
    (runSubmissions s m).1 =
      (List.range m).map (fun i => (s.currProc + (i + 1)) % s.n) ∧
    (runSubmissions s m).2.n = s.n ∧
    (runSubmissions s m).2.currProc = (s.currProc + m) % s.n ∧
    (runSubmissions s m).2.currProc < s.n ∧
    (∀ p j, p + s.n ≤ m → j < s.n →
      (((runSubmissions s m).1.drop p).take s.n).count j = 1) := by
  have hrun := runSubmissions_eq m s hc
  have hn : 0 < s.n := Nat.lt_of_le_of_lt (Nat.zero_le _) hc
  refine ⟨?_, ?_, ?_, ?_, ?_, ?_, ?_⟩
  · intro k hk
    rw [NewService, if_neg (by omega)]
  · intro k hk
    exact ⟨_, by rw [NewService, if_pos hk]⟩
  · rw [hrun]
    refine List.map_congr_left ?_
    intro i _
    rw [Nat.add_assoc]
  · rw [hrun]
  · rw [hrun]
  · rw [hrun]
    exact Nat.mod_lt _ hn
  · intro p j hpn hj
    rw [hrun]
    rw [slice_map_range _ m p s.n hpn]
    have hcongr : (List.range s.n).map (fun t => (s.currProc + (p + t) + 1) % s.n) =
        (List.range s.n).map (fun t => ((s.currProc + p + 1) + t) % s.n) := by
      refine List.map_congr_left ?_
      intro t _
      congr 1
      omega
    rw [hcongr]
    exact count_range_add_mod s.n (s.currProc + p + 1) j hn hj

/-- C1 witness: pool size 3, cursor at 0, seven submissions — assignments
follow `(0 + k) % 3` and the window of three starting at position 2 visits
lane 0 exactly once. -/
theorem C1_round_robin_assignment_witness :
    (runSubmissions { n := 3, currProc := 0 } 7).1 =
      (List.range 7).map (fun i => (0 + (i + 1)) % 3) ∧
    (((runSubmissions { n := 3, currProc := 0 } 7).1.drop 2).take 3).count 0 = 1 :=
  ⟨(C1_round_robin_assignment { n := 3, currProc := 0 } 7 (by decide)).2.2.1,
   (C1_round_robin_assignment { n := 3, currProc := 0 } 7 (by decide)).2.2.2.2.2.2
     2 0 (by decide) (by decide)⟩

end Img
